import Mathlib

set_option maxRecDepth 4096

/-!
Verification of the CRM-Natale spreadsheet import/normalize/merge/export
pipeline (`public/excelimporter.js` and the `import-excel` / `export-gls`
handlers of the Electron main process).

JavaScript values flowing through the pipeline are modelled by `Val`
(strings, numbers as integers, booleans, `null`, `undefined`, and `Date`
objects carried as their ISO string).  A JavaScript object is modelled as
an insertion-ordered association list `Rec`; property update keeps the
original position, property addition appends, matching JS object
semantics.  `Date.now()` is passed in as an explicit `now : Int`
parameter.  `String.prototype.toLowerCase` is modelled on ASCII letters
(all strings compared by the program are ASCII-lowercase or differ only
in ASCII case), and `trim` / `\s` cover the common whitespace characters.
-/

inductive Val where
  | vStr (s : String)
  | vNum (n : Int)
  | vBool (b : Bool)
  | vNull
  | vUndef
  | vDate (iso : String)
deriving DecidableEq, Repr

/-- JS truthiness of a value (`if (x)`): non-empty strings, non-zero
numbers, `true`, and objects (dates) are truthy. -/
def truthy : Val → Bool
  | .vStr s => s != ""
  | .vNum n => n != 0
  | .vBool b => b
  | .vNull => false
  | .vUndef => false
  | .vDate _ => true

/-- A JS object: insertion-ordered association list with unique keys. -/
abbrev Rec := List (String × Val)

/-- Property read (`row[k]`): first entry wins, absent keys give `undefined`. -/
def getF : Rec → String → Val
  | [], _ => .vUndef
  | (k, v) :: t, key => if k = key then v else getF t key

/-- Key presence (`k in row`). -/
def hasKey : Rec → String → Bool
  | [], _ => false
  | (k, _) :: t, key => k == key || hasKey t key

/-- Property write (`row[k] = v`): updates in place if the key exists
(keeping its position), appends otherwise — JS object semantics. -/
def setF : Rec → String → Val → Rec
  | [], key, v => [(key, v)]
  | (k, w) :: t, key, v => if k = key then (k, v) :: t else (k, w) :: setF t key v

/-- Object spread `{...a, ...b}`: apply all entries of `b` over `a`. -/
def spread (a b : Rec) : Rec := b.foldl (fun r kv => setF r kv.1 kv.2) a

/-- The predicate of `importFile`'s field counting:
`val !== undefined && val !== null && val !== ''`. -/
def isCounted : Val → Bool
  | .vUndef => false
  | .vNull => false
  | .vStr s => s != ""
  | _ => true

/-- `Object.values(row).filter(v => v !== undefined && v !== null && v !== '').length`. -/
def countNonEmpty (row : Rec) : Nat :=
  ((row.map Prod.snd).filter isCounted).length

/-! ### String primitives modelling the JS string operations used -/

/-- ASCII upper/lower pairs used to model `String.prototype.toLowerCase`. -/
def lowerPairs : List (Char × Char) :=
  [('A','a'), ('B','b'), ('C','c'), ('D','d'), ('E','e'), ('F','f'),
   ('G','g'), ('H','h'), ('I','i'), ('J','j'), ('K','k'), ('L','l'),
   ('M','m'), ('N','n'), ('O','o'), ('P','p'), ('Q','q'), ('R','r'),
   ('S','s'), ('T','t'), ('U','u'), ('V','v'), ('W','w'), ('X','x'),
   ('Y','y'), ('Z','z')]

def jsToLowerChar (c : Char) : Char :=
  (((lowerPairs.find? (fun p => p.1 == c)).map Prod.snd).getD c)

def jsLowerStr (s : String) : String := ⟨s.toList.map jsToLowerChar⟩

/-- Whitespace for JS `trim` / `\s` (space, tab, LF, CR, FF, VT, NBSP). -/
def jsIsWs (c : Char) : Bool :=
  c == ' ' || c == '\t' || c == '\n' || c == '\r' ||
  c.toNat == 12 || c.toNat == 11 || c.toNat == 160

def jsTrimList (l : List Char) : List Char :=
  ((l.dropWhile jsIsWs).reverse.dropWhile jsIsWs).reverse

def jsTrimStr (s : String) : String := ⟨jsTrimList s.toList⟩

/-- `sub` occurs as a leading segment of `l`. -/
def leadsWith : List Char → List Char → Bool
  | [], _ => true
  | _ :: _, [] => false
  | a :: as, b :: bs => a == b && leadsWith as bs

/-- `s.includes(sub)` on char lists. -/
def containsL (sub : List Char) : List Char → Bool
  | [] => leadsWith sub []
  | c :: t => leadsWith sub (c :: t) || containsL sub t

/-- `s.includes(sub)` — JS substring test. -/
def strIncludes (s sub : String) : Bool := containsL sub.toList s.toList

/-- `.replace(/\s+/g, rep)`: each maximal whitespace run becomes one `rep`.
The boolean argument records whether the previous character was whitespace. -/
def replaceWsRuns (rep : Char) : Bool → List Char → List Char
  | _, [] => []
  | prevWs, c :: t =>
    if jsIsWs c then
      if prevWs then replaceWsRuns rep true t
      else rep :: replaceWsRuns rep true t
    else c :: replaceWsRuns rep false t

/-- `String(value)` for the values the pipeline stringifies. -/
def valToString : Val → String
  | .vStr s => s
  | .vNum n => toString n
  | .vBool b => if b then "true" else "false"
  | .vNull => "null"
  | .vUndef => "undefined"
  | .vDate iso => iso

/-! ### `normalizeRowData` key handling -/

/-- Characters collapsed to spaces by `.replace(/[\/\-_.]/g, ' ')`. -/
def isSpecial (c : Char) : Bool := c == '/' || c == '-' || c == '_' || c == '.'

/-- `String(originalKey).toLowerCase().trim().replace(/[\/\-_.]/g, ' ').replace(/\s+/g, ' ')`. -/
def normalizeKey (s : String) : String :=
  ⟨replaceWsRuns ' ' false
    ((jsTrimList (jsLowerStr s).toList).map (fun c => if isSpecial c then ' ' else c))⟩

/-- The static synonym table of `normalizeRowData`, verbatim, in source order. -/
def keyMapping : List (String × List String) :=
  [("nome", ["nome", "nome persona", "nominativo", "nome_persona", "nome cliente", "nome e cognome", "persona", "referente", "nome referente", "cliente"]),
   ("azienda", ["azienda", "nome azienda", "società", "ragione sociale", "company", "ditta", "società cliente", "societa", "nome societa", "società"]),
   ("indirizzo", ["indirizzo", "via", "strada", "address", "via/piazza", "indirizzo stradale", "via piazza", "indirizzo spedizione"]),
   ("civico", ["civico", "numero civico", "n. civico", "n.civico", "n°", "numero", "numero indirizzo", "n. civico", "num", "num."]),
   ("cap", ["cap", "codice postale", "postal code", "zip", "codice avviamento postale", "c.a.p.", "c.a.p"]),
   ("localita", ["localita", "località", "comune", "città", "city", "paese", "town", "citta", "loc", "loc."]),
   ("provincia", ["provincia", "prov", "province", "pr", "pr.", "sigla provincia", "prov.", "provincia sigla"]),
   ("telefono", ["telefono", "tel", "phone", "cellulare", "tel.", "numero telefono", "cell", "numero cellulare", "tel/cell", "cell."]),
   ("email", ["email", "e-mail", "mail", "posta elettronica", "indirizzo email", "e mail", "posta"]),
   ("note", ["note", "annotazioni", "commenti", "notes", "note aggiuntive", "note cliente", "commento"]),
   ("tipologia", ["tipologia", "tipo partner", "categoria", "tipo cliente", "tipo", "category", "gruppo"]),
   ("grappa", ["grappa", "regalo grappa", "omaggio grappa", "regalo", "gift", "presente", "omaggio", "dono"]),
   ("extraAltro", ["extra/altro", "extra", "altro regalo", "altro omaggio", "extra regalo", "regalo extra", "altro", "altri regali", "extra/altri"]),
   ("consegnaSpedizione", ["consegna/spedizione", "consegna", "consegna a mano", "incaricato consegna", "consegnatario", "deliverer", "spedizione", "incaricato", "consegna spedizione"]),
   ("gls", ["gls", "spedizione gls", "corriere", "spedizione", "shipping", "courier", "corriere gls"])]

/-- The canonical field names, in table order. -/
def canonicalFields : List String := keyMapping.map Prod.fst

/-- Exact-match pass: first field whose synonym list contains the
normalized key, in table order. -/
def exactMatch (nk : String) : Option String :=
  (keyMapping.find? (fun p => p.2.contains nk)).map Prod.fst

/-- Substring pass: first field with a synonym that contains, or is
contained in, the normalized key. -/
def subMatch (nk : String) : Option String :=
  (keyMapping.find? (fun p =>
    p.2.any (fun pk => strIncludes nk pk || strIncludes pk nk))).map Prod.fst

/-- `normalizedKey.replace(/\s+/g, '_')`. -/
def underscoreKey (nk : String) : String := ⟨replaceWsRuns '_' false nk.toList⟩

/-- The final key a spreadsheet header is stored under: exact synonym
match, else substring match, else the normalized key with underscores. -/
def resolveHeader (originalKey : String) : String :=
  let nk := normalizeKey originalKey
  match exactMatch nk with
  | some k => k
  | none =>
    match subMatch nk with
    | some k => k
    | none => underscoreKey nk

/-! ### Value normalization (`normalizeValue`, `normalizeBoolean`) -/

/-- `normalizeBoolean(value)`: booleans pass through, numbers are true
iff equal to 1, strings are lowercased+trimmed and compared against the
truthy set, everything else is false. -/
def normalizeBoolean : Val → Bool
  | .vBool b => b
  | .vNum n => n == 1
  | .vStr s =>
    let lv := jsTrimStr (jsLowerStr s)
    lv == "1" || lv == "true" || lv == "yes" || lv == "sì" || lv == "si" ||
    lv == "vero" || lv == "x" || lv == "✓" || lv == "✔" || lv == "√"
  | _ => false

/-- `normalizeValue(fieldName, value)`: `grappa`/`gls` re-encode the
boolean as `"1"`/`""`; dates become their ISO string; everything else is
stringified and trimmed. -/
def normalizeValue (fieldName : String) (value : Val) : Val :=
  if fieldName == "grappa" || fieldName == "gls" then
    if normalizeBoolean value then .vStr "1" else .vStr ""
  else
    match value with
    | .vDate iso => .vStr iso
    | v => .vStr (jsTrimStr (valToString v))

/-! ### Generic-column path of `normalizeRowData` -/

/-- `/^[A-Z]{1,2}$/.test(key)`. -/
def isGenericCol (s : String) : Bool :=
  match s.toList with
  | [a] => 'A' ≤ a && a ≤ 'Z'
  | [a, b] => ('A' ≤ a && a ≤ 'Z') && ('A' ≤ b && b ≤ 'Z')
  | _ => false

/-- The positional canonical order used for generic columns. -/
def columnOrder : List String :=
  ["nome", "azienda", "indirizzo", "civico", "cap", "localita", "provincia",
   "telefono", "email", "note", "grappa", "extraAltro", "consegnaSpedizione", "gls"]

/-- Lexicographic code-point order, modelling JS default `Array.sort`
string comparison. -/
def lexLe : List Char → List Char → Bool
  | [], _ => true
  | _ :: _, [] => false
  | a :: as, b :: bs =>
    a.toNat < b.toNat || (a.toNat == b.toNat && lexLe as bs)

def insertSorted (s : String) : List String → List String
  | [] => [s]
  | x :: t => if lexLe s.toList x.toList then s :: x :: t else x :: insertSorted s t

/-- `Object.keys(row).sort()` (keys are unique, so insertion sort agrees
with JS sort). -/
def sortKeys : List String → List String
  | [] => []
  | x :: t => insertSorted x (sortKeys t)

/-- The generic-column loop: walk the sorted keys, assign populated
generic columns positionally onto `columnOrder`. -/
def genericLoop (row : Rec) : List String → Nat → Rec → Rec
  | [], _, acc => acc
  | k :: rest, colIndex, acc =>
    if isGenericCol k && colIndex < columnOrder.length then
      let value := getF row k
      let col := columnOrder.getD colIndex ""
      let acc' := if isCounted value then setF acc col (normalizeValue col value) else acc
      genericLoop row rest (colIndex + 1) acc'
    else genericLoop row rest colIndex acc

/-! ### Trailing house-number extraction (`/^(.*?)[,\s]+(\d[^,]*)$/`) -/

def isSepChar (c : Char) : Bool := c == ',' || jsIsWs c

def jsIsDigit (c : Char) : Bool := '0' ≤ c && c ≤ '9'

/-- Backtracking semantics of `raw.match(/^(.*?)[,\s]+(\d[^,]*)$/)`: the
lazy prefix grows one character at a time; at each position a maximal
run of `[,\s]` must be followed by a digit-led, comma-free remainder
(shorter separator runs cannot help, since `\d` rejects `[,\s]` chars).
`acc` is the reversed prefix tried so far. -/
def splitMatch : List Char → List Char → Option (List Char × List Char)
  | _, [] => none
  | acc, c :: rest =>
    if isSepChar c then
      match (c :: rest).dropWhile isSepChar with
      | d :: tail =>
        if jsIsDigit d && !(tail.contains ',') then some (acc.reverse, d :: tail)
        else splitMatch (c :: acc) rest
      | [] => splitMatch (c :: acc) rest
    else splitMatch (c :: acc) rest

/-- Capture groups of `raw.match(/^(.*?)[,\s]+(\d[^,]*)$/)`, or `none`. -/
def civicoSplitStr (s : String) : Option (String × String) :=
  match splitMatch [] s.toList with
  | some (p, r) => some (⟨p⟩, ⟨r⟩)
  | none => none

/-- The post-assignment step of `normalizeRowData`: if `indirizzo` is
truthy and `civico` is falsy or empty, try to split a trailing house
number off `indirizzo.toString().trim()`. -/
def civicoStep (row : Rec) : Rec :=
  if truthy (getF row "indirizzo") &&
     (!truthy (getF row "civico") || getF row "civico" == Val.vStr "") then
    match civicoSplitStr (jsTrimStr (valToString (getF row "indirizzo"))) with
    | some (p, t) =>
      setF (setF row "indirizzo" (.vStr (jsTrimStr p))) "civico" (.vStr (jsTrimStr t))
    | none => row
  else row

/-! ### `normalizeRowData` -/

/-- The header-mapping loop: skip empty values, store each value under
its resolved key (insertion order of the row object). -/
def headerLoop : List (String × Val) → Rec → Rec
  | [], acc => acc
  | (k, v) :: rest, acc =>
    if v == Val.vStr "" || v == Val.vNull || v == Val.vUndef then headerLoop rest acc
    else headerLoop rest (setF acc (resolveHeader k) (normalizeValue (resolveHeader k) v))

/-- `normalizeRowData(row, dataType)`; `now` models `Date.now()`. -/
def normalizeRowData (now : Int) (row : Rec) (dataType : String) : Rec :=
  let base : Rec :=
    [("tipo", .vStr dataType), ("eliminato", .vBool false), ("createdAt", .vNum now)]
  if row.any (fun kv => isGenericCol kv.1) then
    civicoStep (genericLoop row (sortKeys (row.map Prod.fst)) 0 base)
  else
    civicoStep (headerLoop row base)

/-! ### `importFile`: id synthesis, acceptance filter, failure handling -/

/-- `if (!normalizedRow.id) normalizedRow.id = Date.now() + index`. -/
def withId (now : Int) (index : Nat) (r : Rec) : Rec :=
  if truthy (getF r "id") then r else setF r "id" (.vNum (now + index))

/-- The acceptance filter of `importFile`:
`(row.nome || row.azienda) && nonEmptyFields >= 3`. -/
def acceptRow (row : Rec) : Bool :=
  (truthy (getF row "nome") || truthy (getF row "azienda")) &&
  decide (3 ≤ countNonEmpty row)

/-- The data path of `importFile` after row materialization: normalize
every row, synthesize missing ids, keep the valid rows. -/
def importPipeline (now : Int) (dataType : String) (jsonData : List Rec) : List Rec :=
  ((jsonData.enum.map (fun p => withId now p.1 (normalizeRowData now p.2 dataType))).filter
    acceptRow)

/-- Result shape of `importFile`. -/
inductive ImportResult where
  | success (message : String) (data : List Rec)
  | failure (message : String)
deriving DecidableEq, Repr

/-- `importFile` with the workbook read/parse step abstracted as an
`Except` outcome: any raised exception is caught and converted into a
failure result carrying the error's message, with no data. -/
def importFileModel (now : Int) (dataType : String)
    (readOutcome : Except String (List Rec)) : ImportResult :=
  match readOutcome with
  | .error msg => .failure ("Errore durante l'importazione: " ++ msg)
  | .ok jsonData =>
    let normalizedData :=
      jsonData.enum.map (fun p => withId now p.1 (normalizeRowData now p.2 dataType))
    let validData := normalizedData.filter acceptRow
    .success
      ("Importazione completata con successo: " ++ toString validData.length ++
        " record validi su " ++ toString normalizedData.length ++ " totali")
      validData

/-! ### Merge/upsert reconciler (`import-excel` handler, main process) -/

/-- `x.toLowerCase()` on a field value (the merge loop only reaches this
on truthy string fields). -/
def valToLower : Val → Val
  | .vStr s => .vStr (jsLowerStr s)
  | v => v

/-- The `findIndex` predicate of the merge loop:
`item.nome && importedItem.nome && item.azienda && importedItem.azienda
 && item.nome.toLowerCase() === importedItem.nome.toLowerCase()
 && item.azienda.toLowerCase() === importedItem.azienda.toLowerCase()`. -/
def matchesRec (item importedItem : Rec) : Bool :=
  truthy (getF item "nome") && truthy (getF importedItem "nome") &&
  truthy (getF item "azienda") && truthy (getF importedItem "azienda") &&
  valToLower (getF item "nome") == valToLower (getF importedItem "nome") &&
  valToLower (getF item "azienda") == valToLower (getF importedItem "azienda")

/-- `Array.prototype.findIndex`. -/
def findIdxRec (p : Rec → Bool) : List Rec → Option Nat
  | [] => none
  | x :: t => if p x then some 0 else (findIdxRec p t).map (· + 1)

/-- The record stored on a match:
`{...existing, ...imported, id: originalId, eliminato, lastUpdate: now}`
with `eliminato = existing.eliminato || false`. -/
def mergeUpdate (now : Int) (existing importedItem : Rec) : Rec :=
  let eliminato :=
    if truthy (getF existing "eliminato") then getF existing "eliminato"
    else Val.vBool false
  setF (setF (setF (spread existing importedItem)
    "id" (getF existing "id")) "eliminato" eliminato) "lastUpdate" (.vNum now)

/-- The record appended on no match:
`{...importedItem, id: now + length + newRecords, eliminato: false, createdAt: now}`. -/
def mergeInsert (now : Int) (newId : Int) (importedItem : Rec) : Rec :=
  setF (setF (setF importedItem "id" (.vNum newId)) "eliminato" (.vBool false))
    "createdAt" (.vNum now)

/-- The merge loop of the `import-excel` handler over the imported
records, carrying `updatedData`, `newRecords` and `updatedRecords`. -/
def mergeLoop (now : Int) : List Rec → List Rec → Nat → Nat → List Rec × Nat × Nat
  | updatedData, [], newR, updR => (updatedData, newR, updR)
  | updatedData, importedItem :: rest, newR, updR =>
    match findIdxRec (fun item => matchesRec item importedItem) updatedData with
    | some i =>
      let existing := updatedData.getD i []
      mergeLoop now (updatedData.set i (mergeUpdate now existing importedItem))
        rest newR (updR + 1)
    | none =>
      let newId := now + updatedData.length + newR
      mergeLoop now (updatedData ++ [mergeInsert now newId importedItem])
        rest (newR + 1) updR

/-- Merge an import batch into the current (non-deleted) records:
returns the updated data with the `(newRecords, updatedRecords)` counts. -/
def mergeRecords (now : Int) (currentData importedData : List Rec) : List Rec × Nat × Nat :=
  mergeLoop now currentData importedData 0 0

/-! ### GLS export (`exportGLS`) -/

/-- `record.gls && (record.gls === '1' || record.gls === 1 || record.gls === true)`. -/
def glsTruthy (r : Rec) : Bool :=
  truthy (getF r "gls") &&
  (getF r "gls" == Val.vStr "1" || getF r "gls" == Val.vNum 1 ||
   getF r "gls" == Val.vBool true)

/-- `x || ''`. -/
def valOrEmpty (v : Val) : Val := if truthy v then v else .vStr ""

/-- `x.trim()` on a field value (reached only on truthy strings). -/
def valTrim : Val → Val
  | .vStr s => .vStr (jsTrimStr s)
  | v => v

/-- `` `${record.indirizzo || ''} ${record.civico || ''}`.trim() ``. -/
def glsIndirizzo (r : Rec) : String :=
  jsTrimStr (valToString (valOrEmpty (getF r "indirizzo")) ++ " " ++
    valToString (valOrEmpty (getF r "civico")))

/-- The fixed 10-column projection of one GLS record. -/
def exportRow (r : Rec) : Rec :=
  let nomeDestinatario :=
    if truthy (getF r "azienda") && valTrim (getF r "azienda") != Val.vStr "" then
      getF r "azienda"
    else getF r "nome"
  [("NOME DESTINATARIO", valOrEmpty nomeDestinatario),
   ("INDIRIZZO", valOrEmpty (.vStr (glsIndirizzo r))),
   ("LOCALITA'", valOrEmpty (getF r "localita")),
   ("PROV", valOrEmpty (getF r "provincia")),
   ("CAP", valOrEmpty (getF r "cap")),
   ("TIPO MERCE", .vStr "OMAGGIO NATALIZIO"),
   ("COLLI", .vStr "1"),
   ("NOTE SPEDIZIONE", valOrEmpty (getF r "note")),
   ("RIFERIMENTO MITTENTE", valOrEmpty (getF r "nome")),
   ("TELEFONO", valOrEmpty (getF r "telefono"))]

/-- `exportGLS(data)` up to workbook serialization: filter the truthy-gls
records, error when none remain, otherwise produce the formatted rows. -/
def exportGLS (data : List Rec) : Except String (List Rec) :=
  let glsRecords := data.filter glsTruthy
  if glsRecords.length == 0 then .error "Nessun record da esportare per GLS"
  else .ok (glsRecords.map exportRow)

/-! ### Structural lemmas about records -/

theorem getF_setF_self (r : Rec) (k : String) (v : Val) : getF (setF r k v) k = v := by
  induction r with
  | nil => simp [setF, getF]
  | cons e t ih =>
    obtain ⟨k0, w⟩ := e
    by_cases h : k0 = k
    · simp [setF, getF, h]
    · simp [setF, getF, h, ih]

theorem getF_setF_ne (r : Rec) (k k' : String) (v : Val) (h : k' ≠ k) :
    getF (setF r k v) k' = getF r k' := by
  have hkk : k ≠ k' := fun hc => h hc.symm
  induction r with
  | nil => simp [getF, setF, hkk]
  | cons e t ih =>
    obtain ⟨k0, w⟩ := e
    by_cases h0 : k0 = k
    · subst h0
      simp [setF, getF, hkk]
    · simp [setF, getF, h0, ih]

theorem hasKey_of_getF_ne_undef (r : Rec) (k : String) (h : getF r k ≠ Val.vUndef) :
    hasKey r k = true := by
  induction r with
  | nil => simp [getF] at h
  | cons e t ih =>
    obtain ⟨k0, w⟩ := e
    by_cases h0 : k0 = k
    · simp [hasKey, h0]
    · simp [getF, h0] at h
      simp [hasKey, h0, ih h]

theorem mem_of_getF_eq (r : Rec) (k : String) (v : Val) (hv : getF r k = v)
    (hne : v ≠ Val.vUndef) : (k, v) ∈ r := by
  induction r with
  | nil => simp [getF] at hv; exact absurd hv.symm hne
  | cons e t ih =>
    obtain ⟨k0, w⟩ := e
    by_cases h0 : k0 = k
    · subst h0
      simp [getF] at hv
      simp [hv]
    · simp [getF, h0] at hv
      simp [ih hv]

/-- Unique keys, the invariant of records built from JS objects. -/
def keysNodup (r : Rec) : Prop := (r.map Prod.fst).Nodup

instance (r : Rec) : Decidable (keysNodup r) := by unfold keysNodup; infer_instance

theorem hasKey_iff (r : Rec) (k : String) : hasKey r k = true ↔ k ∈ r.map Prod.fst := by
  induction r with
  | nil => simp [hasKey]
  | cons e t ih =>
    obtain ⟨k0, w⟩ := e
    by_cases h0 : k0 = k
    · simp [hasKey, h0]
    · unfold hasKey
      rw [List.map_cons, List.mem_cons]
      constructor
      · intro hh
        simp only [Bool.or_eq_true, beq_iff_eq] at hh
        rcases hh with hh | hh
        · exact absurd hh h0
        · exact Or.inr (ih.mp hh)
      · intro hm
        rcases hm with hm | hm
        · exact absurd hm.symm h0
        · simp only [Bool.or_eq_true, beq_iff_eq]
          exact Or.inr (ih.mpr hm)

theorem keys_setF (r : Rec) (k : String) (v : Val) :
    (setF r k v).map Prod.fst =
      if hasKey r k then r.map Prod.fst else r.map Prod.fst ++ [k] := by
  induction r with
  | nil => simp [setF, hasKey]
  | cons e t ih =>
    obtain ⟨k0, w⟩ := e
    by_cases h0 : k0 = k
    · simp [setF, hasKey, h0]
    · by_cases ht : hasKey t k
      · simp [setF, hasKey, h0, ht, ih]
      · simp [setF, hasKey, h0, ht, ih]

theorem keysNodup_setF (r : Rec) (k : String) (v : Val) (h : keysNodup r) :
    keysNodup (setF r k v) := by
  unfold keysNodup at h ⊢
  rw [keys_setF]
  by_cases hk : hasKey r k
  · simpa [hk] using h
  · have hnm : k ∉ r.map Prod.fst := fun hc => by
      rw [← hasKey_iff] at hc
      exact absurd hc (by simpa using hk)
    simp [hk, List.nodup_append, h, hnm]

theorem spread_cons (a : Rec) (kv : String × Val) (b : List (String × Val)) :
    spread a (kv :: b) = spread (setF a kv.1 kv.2) b := rfl

theorem getF_spread (b : Rec) : ∀ (a : Rec) (k : String), keysNodup b →
    getF (spread a b) k = if hasKey b k then getF b k else getF a k := by
  induction b with
  | nil => intro a k _; simp [spread, hasKey]
  | cons e t ih =>
    intro a k hnd
    obtain ⟨k0, w⟩ := e
    unfold keysNodup at hnd
    simp only [List.map_cons, List.nodup_cons] at hnd
    rw [spread_cons, ih (setF a k0 w) k hnd.2]
    by_cases hk : k0 = k
    · subst hk
      have hkt : hasKey t k0 = false := by
        rw [← Bool.not_eq_true, hasKey_iff]
        exact hnd.1
      simp [hasKey, hkt, getF, getF_setF_self]
    · by_cases ht : hasKey t k
      · simp [hasKey, getF, hk, ht]
      · simp [hasKey, getF, hk, ht,
          getF_setF_ne a k0 k w (fun hc => hk hc.symm)]

theorem countNonEmpty_eq_countP (r : Rec) :
    countNonEmpty r = r.countP (fun kv => isCounted kv.2) := by
  unfold countNonEmpty
  rw [List.filter_map, List.length_map, List.countP_eq_length_filter]
  rfl

theorem three_le_countNonEmpty (l : Rec) (hnd : keysNodup l)
    (k1 k2 k3 : String) (v1 v2 v3 : Val)
    (h12 : k1 ≠ k2) (h13 : k1 ≠ k3) (h23 : k2 ≠ k3)
    (m1 : (k1, v1) ∈ l) (m2 : (k2, v2) ∈ l) (m3 : (k3, v3) ∈ l)
    (c1 : isCounted v1 = true) (c2 : isCounted v2 = true) (c3 : isCounted v3 = true) :
    3 ≤ countNonEmpty l := by
  rw [countNonEmpty_eq_countP, List.countP_eq_length_filter]
  have hlnd : l.Nodup := List.Nodup.of_map _ hnd
  have hf : (l.filter (fun kv => isCounted kv.2)).Nodup := hlnd.filter _
  have f1 : (k1, v1) ∈ l.filter (fun kv => isCounted kv.2) :=
    List.mem_filter.mpr ⟨m1, c1⟩
  have f2 : (k2, v2) ∈ l.filter (fun kv => isCounted kv.2) :=
    List.mem_filter.mpr ⟨m2, c2⟩
  have f3 : (k3, v3) ∈ l.filter (fun kv => isCounted kv.2) :=
    List.mem_filter.mpr ⟨m3, c3⟩
  have hsub : ({(k1, v1), (k2, v2), (k3, v3)} : Finset (String × Val)) ⊆
      (l.filter (fun kv => isCounted kv.2)).toFinset := by
    intro x hx
    simp only [Finset.mem_insert, Finset.mem_singleton] at hx
    rcases hx with rfl | rfl | rfl
    · exact List.mem_toFinset.mpr f1
    · exact List.mem_toFinset.mpr f2
    · exact List.mem_toFinset.mpr f3
  have hcard : ({(k1, v1), (k2, v2), (k3, v3)} : Finset (String × Val)).card = 3 := by
    rw [Finset.card_insert_of_not_mem (by simp [Prod.ext_iff, h12, h13]),
      Finset.card_insert_of_not_mem (by simp [Prod.ext_iff, h23]),
      Finset.card_singleton]
  calc 3 = ({(k1, v1), (k2, v2), (k3, v3)} : Finset (String × Val)).card := hcard.symm
    _ ≤ (l.filter (fun kv => isCounted kv.2)).toFinset.card := Finset.card_le_card hsub
    _ = (l.filter (fun kv => isCounted kv.2)).length := List.toFinset_card_of_nodup hf

theorem getF_civicoStep_ne (row : Rec) (k : String)
    (h1 : k ≠ "indirizzo") (h2 : k ≠ "civico") :
    getF (civicoStep row) k = getF row k := by
  unfold civicoStep
  split
  · split
    · rw [getF_setF_ne _ _ _ _ h2, getF_setF_ne _ _ _ _ h1]
    · rfl
  · rfl

theorem keysNodup_civicoStep (row : Rec) (h : keysNodup row) :
    keysNodup (civicoStep row) := by
  unfold civicoStep
  split
  · split
    · exact keysNodup_setF _ _ _ (keysNodup_setF _ _ _ h)
    · exact h
  · exact h

theorem findIdxRec_of_mem (p : Rec → Bool) (l : List Rec) (e : Rec)
    (he : e ∈ l) (hp : p e = true) : ∃ i, findIdxRec p l = some i := by
  induction l with
  | nil => simp at he
  | cons x t ih =>
    by_cases hx : p x
    · exact ⟨0, by simp [findIdxRec, hx]⟩
    · rcases List.mem_cons.mp he with rfl | he2
      · exact absurd hp hx
      · obtain ⟨i, hi⟩ := ih he2
        exact ⟨i + 1, by simp [findIdxRec, hx, hi]⟩

theorem findIdxRec_some (p : Rec → Bool) (l : List Rec) :
    ∀ i : Nat, findIdxRec p l = some i → i < l.length ∧ p (l.getD i []) = true := by
  induction l with
  | nil => intro i h; simp [findIdxRec] at h
  | cons x t ih =>
    intro i h
    by_cases hx : p x
    · simp [findIdxRec, hx] at h
      subst h
      simpa using hx
    · simp only [findIdxRec, if_neg hx, Option.map_eq_some'] at h
      obtain ⟨j, hj, rfl⟩ := h
      have := ih j hj
      exact ⟨by simpa using Nat.succ_lt_succ this.1, by simpa using this.2⟩

theorem mem_set_or (l : List Rec) (i : Nat) (u e : Rec) (he : e ∈ l) :
    e ∈ l.set i u ∨ e = l.getD i [] := by
  obtain ⟨j, hj, rfl⟩ := List.mem_iff_getElem.mp he
  by_cases hij : j = i
  · subst hij
    right
    rw [List.getD_eq_getElem l [] hj]
  · left
    have hjs : j < (l.set i u).length := by simpa using hj
    have heq2 : (l.set i u)[j] = l[j] := by
      rw [List.getElem_set_ne (by omega)]
    rw [← heq2]
    exact List.getElem_mem hjs

theorem mem_set_self (l : List Rec) (i : Nat) (u : Rec) (hi : i < l.length) :
    u ∈ l.set i u := by
  have hjs : i < (l.set i u).length := by simpa using hi
  have h1 : (l.set i u)[i] = u := List.getElem_set_self hjs
  have h2 : (l.set i u)[i] ∈ l.set i u := List.getElem_mem hjs
  rwa [h1] at h2

/-! ### Merge lemmas -/

/-- A record with unique keys and non-empty string `nome`/`azienda` —
the shape on which merge matching can succeed. -/
def goodRecord (r : Rec) : Prop :=
  keysNodup r ∧ ∃ n a : String,
    getF r "nome" = Val.vStr n ∧ n ≠ "" ∧ getF r "azienda" = Val.vStr a ∧ a ≠ ""

theorem matchesRec_refl (r : Rec) (h : goodRecord r) : matchesRec r r = true := by
  obtain ⟨-, n, a, hn, hn2, ha, ha2⟩ := h
  simp [matchesRec, hn, ha, truthy, hn2, ha2]

theorem getF_mergeUpdate_of_imp (now : Int) (e imp : Rec) (k : String)
    (hnd : keysNodup imp)
    (hk1 : k ≠ "id") (hk2 : k ≠ "eliminato") (hk3 : k ≠ "lastUpdate")
    (hv : getF imp k ≠ Val.vUndef) :
    getF (mergeUpdate now e imp) k = getF imp k := by
  unfold mergeUpdate
  rw [getF_setF_ne _ _ _ _ hk3, getF_setF_ne _ _ _ _ hk2, getF_setF_ne _ _ _ _ hk1,
    getF_spread imp e k hnd, if_pos (hasKey_of_getF_ne_undef imp k hv)]

theorem getF_mergeUpdate_other (now : Int) (e imp : Rec) (k : String)
    (hnd : keysNodup imp)
    (hk1 : k ≠ "id") (hk2 : k ≠ "eliminato") (hk3 : k ≠ "lastUpdate") :
    getF (mergeUpdate now e imp) k = if hasKey imp k then getF imp k else getF e k := by
  unfold mergeUpdate
  rw [getF_setF_ne _ _ _ _ hk3, getF_setF_ne _ _ _ _ hk2, getF_setF_ne _ _ _ _ hk1,
    getF_spread imp e k hnd]

theorem getF_mergeUpdate_id (now : Int) (e imp : Rec) :
    getF (mergeUpdate now e imp) "id" = getF e "id" := by
  unfold mergeUpdate
  rw [getF_setF_ne _ _ _ _ (by decide), getF_setF_ne _ _ _ _ (by decide), getF_setF_self]

theorem getF_mergeUpdate_lastUpdate (now : Int) (e imp : Rec) :
    getF (mergeUpdate now e imp) "lastUpdate" = Val.vNum now := by
  unfold mergeUpdate
  rw [getF_setF_self]

theorem getF_mergeUpdate_eliminato (now : Int) (e imp : Rec) :
    getF (mergeUpdate now e imp) "eliminato" =
      if truthy (getF e "eliminato") then getF e "eliminato" else Val.vBool false := by
  unfold mergeUpdate
  rw [getF_setF_ne _ _ _ _ (by decide), getF_setF_self]

theorem matchesRec_update (now : Int) (e0 r imp : Rec)
    (h1 : matchesRec e0 imp = true) (h2 : matchesRec e0 r = true)
    (himp : goodRecord imp) :
    matchesRec (mergeUpdate now e0 imp) r = true := by
  obtain ⟨hnd, n, a, hn, hn2, ha, ha2⟩ := himp
  have hnome : getF (mergeUpdate now e0 imp) "nome" = Val.vStr n := by
    rw [getF_mergeUpdate_of_imp now e0 imp "nome" hnd (by decide) (by decide) (by decide)
      (by rw [hn]; simp), hn]
  have hazienda : getF (mergeUpdate now e0 imp) "azienda" = Val.vStr a := by
    rw [getF_mergeUpdate_of_imp now e0 imp "azienda" hnd (by decide) (by decide) (by decide)
      (by rw [ha]; simp), ha]
  simp only [matchesRec, Bool.and_eq_true, beq_iff_eq] at h1 h2 ⊢
  obtain ⟨⟨⟨⟨⟨i1, i2⟩, i3⟩, i4⟩, i5⟩, i6⟩ := h1
  obtain ⟨⟨⟨⟨⟨j1, j2⟩, j3⟩, j4⟩, j5⟩, j6⟩ := h2
  rw [hn] at i5
  rw [ha] at i6
  refine ⟨⟨⟨⟨⟨?_, j2⟩, ?_⟩, j4⟩, ?_⟩, ?_⟩
  · rw [hnome]; simpa [truthy] using hn2
  · rw [hazienda]; simpa [truthy] using ha2
  · rw [hnome, ← i5]; exact j5
  · rw [hazienda, ← i6]; exact j6

theorem mergeLoop_allMatch (now : Int) :
    ∀ (imported : List Rec), ∀ (updatedData : List Rec) (nR uR : Nat),
      (∀ r ∈ imported, goodRecord r) →
      (∀ r ∈ imported, ∃ e ∈ updatedData, matchesRec e r = true) →
      ∃ D : List Rec,
        mergeLoop now updatedData imported nR uR = (D, nR, uR + imported.length) ∧
        D.length = updatedData.length := by
  intro imported
  induction imported with
  | nil => intro D nR uR _ _; exact ⟨D, by simp [mergeLoop], rfl⟩
  | cons imp rest ih =>
    intro updatedData nR uR hgood hex
    obtain ⟨e0, he0, hm0⟩ := hex imp (List.mem_cons_self _ _)
    obtain ⟨i, hi⟩ :=
      findIdxRec_of_mem (fun item => matchesRec item imp) updatedData e0 he0 hm0
    have hspec := findIdxRec_some (fun item => matchesRec item imp) updatedData i hi
    have hematch : matchesRec (updatedData.getD i []) imp = true := hspec.2
    have hgood2 : ∀ r ∈ rest, goodRecord r :=
      fun r hr => hgood r (List.mem_cons_of_mem _ hr)
    have hex2 : ∀ r ∈ rest,
        ∃ e ∈ updatedData.set i (mergeUpdate now (updatedData.getD i []) imp),
          matchesRec e r = true := by
      intro r hr
      obtain ⟨e2, he2, hm2⟩ := hex r (List.mem_cons_of_mem _ hr)
      rcases mem_set_or updatedData i (mergeUpdate now (updatedData.getD i []) imp) e2 he2
        with hin | heq
      · exact ⟨e2, hin, hm2⟩
      · refine ⟨mergeUpdate now (updatedData.getD i []) imp,
          mem_set_self updatedData i _ hspec.1, ?_⟩
        exact matchesRec_update now (updatedData.getD i []) r imp hematch (heq ▸ hm2)
          (hgood imp (List.mem_cons_self _ _))
    obtain ⟨D, hD, hDlen⟩ :=
      ih (updatedData.set i (mergeUpdate now (updatedData.getD i []) imp)) nR (uR + 1)
        hgood2 hex2
    refine ⟨D, ?_, by simpa using hDlen⟩
    simp only [mergeLoop, hi]
    rw [hD]
    simp [Prod.ext_iff]
    omega

/-! ### Concrete records of the specification scenarios -/

def c1current : Rec :=
  [("id", .vNum 1), ("nome", .vStr "Mario"), ("azienda", .vStr "Acme"),
   ("telefono", .vStr "000")]

def c1imported : Rec :=
  [("nome", .vStr "mario"), ("azienda", .vStr "ACME"), ("telefono", .vStr "111")]

/-- All (canonical field, synonym spelling) pairs of the synonym table. -/
def synonymPairs : List (String × String) :=
  keyMapping.flatMap (fun p => p.2.map (fun s => (p.1, s)))

/-- C1: merge matching is exactly case-insensitive equality of non-empty
`nome` and `azienda` on both sides; on a match the imported fields
overwrite the existing ones while `id` and `eliminato` are preserved and
`lastUpdate` is stamped; the spec's concrete scenario produces one record
with id 1 and telefono "111", inserted = 0 and updated = 1. -/
theorem claim1_mergeMatchAndOverwrite :
    (∀ (item imp : Rec) (ni ai nj aj : String),
      getF item "nome" = Val.vStr ni → getF item "azienda" = Val.vStr ai →
      getF imp "nome" = Val.vStr nj → getF imp "azienda" = Val.vStr aj →
      (matchesRec item imp = true ↔
        (ni ≠ "" ∧ nj ≠ "" ∧ ai ≠ "" ∧ aj ≠ "" ∧
         jsLowerStr ni = jsLowerStr nj ∧ jsLowerStr ai = jsLowerStr aj))) ∧
    (∀ (now : Int) (e imp : Rec) (k : String), keysNodup imp →
      getF (mergeUpdate now e imp) "id" = getF e "id" ∧
      getF (mergeUpdate now e imp) "lastUpdate" = Val.vNum now ∧
      (truthy (getF e "eliminato") = true →
        getF (mergeUpdate now e imp) "eliminato" = getF e "eliminato") ∧
      (truthy (getF e "eliminato") = false →
        getF (mergeUpdate now e imp) "eliminato" = Val.vBool false) ∧
      (k ≠ "id" → k ≠ "eliminato" → k ≠ "lastUpdate" →
        getF (mergeUpdate now e imp) k =
          if hasKey imp k then getF imp k else getF e k)) ∧
    (∀ now : Int,
      mergeRecords now [c1current] [c1imported] =
        ([[("id", Val.vNum 1), ("nome", Val.vStr "mario"), ("azienda", Val.vStr "ACME"),
           ("telefono", Val.vStr "111"), ("eliminato", Val.vBool false),
           ("lastUpdate", Val.vNum now)]], 0, 1)) := by
  refine ⟨?_, ?_, fun now => rfl⟩
  · intro item imp ni ai nj aj hni hai hnj haj
    simp only [matchesRec, hni, hai, hnj, haj, truthy, valToLower,
      Bool.and_eq_true, beq_iff_eq, bne_iff_ne, ne_eq, Val.vStr.injEq]
    constructor
    · rintro ⟨⟨⟨⟨⟨x1, x2⟩, x3⟩, x4⟩, x5⟩, x6⟩
      exact ⟨x1, x2, x3, x4, x5, x6⟩
    · rintro ⟨x1, x2, x3, x4, x5, x6⟩
      exact ⟨⟨⟨⟨⟨x1, x2⟩, x3⟩, x4⟩, x5⟩, x6⟩
  · intro now e imp k hnd
    refine ⟨getF_mergeUpdate_id now e imp, getF_mergeUpdate_lastUpdate now e imp,
      ?_, ?_, fun h1 h2 h3 => getF_mergeUpdate_other now e imp k hnd h1 h2 h3⟩
    · intro ht
      rw [getF_mergeUpdate_eliminato, if_pos ht]
    · intro ht
      rw [getF_mergeUpdate_eliminato, if_neg (by simp [ht])]

theorem claim1_witness :
    matchesRec c1current c1imported = true ∧
    getF (mergeUpdate 99 c1current c1imported) "id" = getF c1current "id" :=
  ⟨(claim1_mergeMatchAndOverwrite.1 c1current c1imported "Mario" "Acme" "mario" "ACME"
      rfl rfl rfl rfl).mpr (by decide),
   (claim1_mergeMatchAndOverwrite.2.1 99 c1current c1imported "x" (by decide)).1⟩

/-- C2 fails as stated: a valid import row can carry `nome` without
`azienda` (the acceptance filter needs only one of them), and such a
record never matches anything — merging the batch against itself inserts
a duplicate instead of updating. -/
theorem claim2_counterexample :
    (mergeRecords 7 (importPipeline 5 "clienti" [[("nome", Val.vStr "Mario")]])
        (importPipeline 5 "clienti" [[("nome", Val.vStr "Mario")]])).2.1 = 1 ∧
    (mergeRecords 7 (importPipeline 5 "clienti" [[("nome", Val.vStr "Mario")]])
        (importPipeline 5 "clienti" [[("nome", Val.vStr "Mario")]])).2.2 = 0 ∧
    (mergeRecords 7 (importPipeline 5 "clienti" [[("nome", Val.vStr "Mario")]])
        (importPipeline 5 "clienti" [[("nome", Val.vStr "Mario")]])).1.length = 2 := by
  decide

/-- C2 amended: for batches whose records all have unique keys and
non-empty string `nome` and `azienda`, merging the batch against itself
inserts nothing, updates every record, and does not change the record
count. -/
theorem claim2_mergeSelfIdempotent (now : Int) (batch : List Rec)
    (h : ∀ r ∈ batch, goodRecord r) :
    (mergeRecords now batch batch).2.1 = 0 ∧
    (mergeRecords now batch batch).2.2 = batch.length ∧
    (mergeRecords now batch batch).1.length = batch.length := by
  obtain ⟨D, hD, hDlen⟩ := mergeLoop_allMatch now batch batch 0 0 h
    (fun r hr => ⟨r, hr, matchesRec_refl r (h r hr)⟩)
  unfold mergeRecords
  rw [hD]
  simp [hDlen]

theorem claim2_witness :
    (mergeRecords 3 [c1current] [c1current]).2.1 = 0 ∧
    (mergeRecords 3 [c1current] [c1current]).2.2 = 1 ∧
    (mergeRecords 3 [c1current] [c1current]).1.length = 1 :=
  claim2_mergeSelfIdempotent 3 [c1current] (by
    intro r hr
    rw [List.mem_singleton] at hr
    subst hr
    exact ⟨by decide, "Mario", "Acme", rfl, by decide, rfl, by decide⟩)

/-- C4 fails as stated: `'spedizione'` is listed as a synonym of `gls`
but resolves to `consegnaSpedizione` (earlier in table order), and the
`cap` synonyms `'c.a.p.'` / `'c.a.p'` resolve to no canonical field at
all (their normalized forms match nothing in the table). -/
theorem claim4_counterexample :
    ("gls", "spedizione") ∈ synonymPairs ∧
    resolveHeader "spedizione" = "consegnaSpedizione" ∧
    ("cap", "c.a.p.") ∈ synonymPairs ∧
    resolveHeader "c.a.p." = "c_a_p_" ∧ "c_a_p_" ∉ canonicalFields ∧
    ("cap", "c.a.p") ∈ synonymPairs ∧
    resolveHeader "c.a.p" = "c_a_p" ∧ "c_a_p" ∉ canonicalFields := by
  decide

/-- C4 amended: every synonym spelling of the table resolves (by key
normalization, then exact and substring matching) to its own canonical
field, except the three spellings of the counterexample. -/
theorem claim4_synonymResolution :
    ∀ q ∈ synonymPairs,
      q ≠ ("gls", "spedizione") → q ≠ ("cap", "c.a.p.") → q ≠ ("cap", "c.a.p") →
      resolveHeader q.2 = q.1 := by
  decide

theorem claim4_witness : resolveHeader "tel." = "telefono" :=
  claim4_synonymResolution ("telefono", "tel.") (by decide) (by decide) (by decide)
    (by decide)

/-- C5: boolean-flag normalization of `grappa`/`gls` fields maps the
spec's truthy inputs to `"1"` and its falsy inputs to `""`, and a string
is truthy exactly when its lowercased, trimmed form is in the truthy set. -/
theorem claim5_booleanFlagNormalization :
    (∀ f : String, f = "grappa" ∨ f = "gls" →
      normalizeValue f (Val.vStr "Sì") = Val.vStr "1" ∧
      normalizeValue f (Val.vStr "X") = Val.vStr "1" ∧
      normalizeValue f (Val.vNum 1) = Val.vStr "1" ∧
      normalizeValue f (Val.vBool true) = Val.vStr "1" ∧
      normalizeValue f (Val.vStr "") = Val.vStr "" ∧
      normalizeValue f (Val.vStr "no") = Val.vStr "" ∧
      normalizeValue f (Val.vNum 0) = Val.vStr "" ∧
      normalizeValue f (Val.vBool false) = Val.vStr "") ∧
    (∀ s : String, normalizeBoolean (Val.vStr s) = true ↔
      jsTrimStr (jsLowerStr s) ∈
        (["1", "true", "yes", "sì", "si", "vero", "x", "✓", "✔", "√"] : List String)) := by
  constructor
  · rintro f (rfl | rfl)
    · exact ⟨rfl, rfl, rfl, rfl, rfl, rfl, rfl, rfl⟩
    · exact ⟨rfl, rfl, rfl, rfl, rfl, rfl, rfl, rfl⟩
  · intro s
    simp only [normalizeBoolean, Bool.or_eq_true, beq_iff_eq, List.mem_cons,
      List.mem_singleton, List.not_mem_nil, or_false]
    tauto

theorem claim5_witness : normalizeValue "gls" (Val.vStr "Sì") = Val.vStr "1" :=
  (claim5_booleanFlagNormalization.1 "gls" (Or.inr rfl)).1

/-- C3: a normalized row is kept exactly when `nome` or `azienda` is a
non-empty string and at least three of its values are neither undefined,
null, nor the empty string. -/
theorem claim3_acceptanceFilter :
    (∀ (now : Int) (dataType : String) (jsonData : List Rec) (r : Rec),
      r ∈ importPipeline now dataType jsonData ↔
        (r ∈ jsonData.enum.map
            (fun p => withId now p.1 (normalizeRowData now p.2 dataType)) ∧
         acceptRow r = true)) ∧
    (∀ row : Rec,
      (getF row "nome" = Val.vUndef ∨ ∃ s, getF row "nome" = Val.vStr s) →
      (getF row "azienda" = Val.vUndef ∨ ∃ s, getF row "azienda" = Val.vStr s) →
      (acceptRow row = true ↔
        (((∃ s, getF row "nome" = Val.vStr s ∧ s ≠ "") ∨
          (∃ s, getF row "azienda" = Val.vStr s ∧ s ≠ "")) ∧
         3 ≤ countNonEmpty row))) := by
  constructor
  · intro now dataType jsonData r
    unfold importPipeline
    exact List.mem_filter
  · intro row hn ha
    rcases hn with hn | ⟨sn, hn⟩ <;> rcases ha with ha | ⟨sa, ha⟩ <;>
      simp [acceptRow, hn, ha, truthy] <;> tauto

def c7r1 : Rec :=
  [("nome", .vStr "A"), ("azienda", .vStr ""), ("gls", .vStr "1"),
   ("indirizzo", .vStr "Via X"), ("civico", .vStr "5"), ("localita", .vStr "Udine")]

def c7r2 : Rec := [("nome", .vStr "B"), ("gls", .vStr "")]

def c7out : Rec :=
  [("NOME DESTINATARIO", .vStr "A"), ("INDIRIZZO", .vStr "Via X 5"),
   ("LOCALITA'", .vStr "Udine"), ("PROV", .vStr ""), ("CAP", .vStr ""),
   ("TIPO MERCE", .vStr "OMAGGIO NATALIZIO"), ("COLLI", .vStr "1"),
   ("NOTE SPEDIZIONE", .vStr ""), ("RIFERIMENTO MITTENTE", .vStr "A"),
   ("TELEFONO", .vStr "")]

theorem valOrEmpty_vStr (s : String) : valOrEmpty (Val.vStr s) = Val.vStr s := by
  unfold valOrEmpty truthy
  by_cases h : s = ""
  · simp [h]
  · simp [h]

/-- C7: export keeps exactly the records whose `gls` is `"1"`, `1`, or
`true`; the recipient name is `azienda` when non-empty after trim and
`nome` otherwise; the address is `indirizzo` and `civico` joined by one
space and trimmed; the spec's concrete scenario exports exactly the
first record. -/
theorem claim7_exportFilterProjection :
    (∀ r : Rec, glsTruthy r = true ↔
      (getF r "gls" = Val.vStr "1" ∨ getF r "gls" = Val.vNum 1 ∨
       getF r "gls" = Val.vBool true)) ∧
    (∀ (r : Rec) (a n : String),
      getF r "azienda" = Val.vStr a → getF r "nome" = Val.vStr n →
      getF (exportRow r) "NOME DESTINATARIO" =
        (if jsTrimStr a ≠ "" then Val.vStr a
         else if n ≠ "" then Val.vStr n else Val.vStr "")) ∧
    (∀ (r : Rec) (i c : String),
      getF r "indirizzo" = Val.vStr i → getF r "civico" = Val.vStr c →
      getF (exportRow r) "INDIRIZZO" = Val.vStr (jsTrimStr (i ++ " " ++ c))) ∧
    exportGLS [c7r1, c7r2] = Except.ok [c7out] := by
  refine ⟨?_, ?_, ?_, by rfl⟩
  · intro r
    rcases hv : getF r "gls" with s | m | b | - | - | d <;>
      simp [glsTruthy, hv, truthy]
    · rintro rfl
      decide
    · omega
  · intro r a n ha hn
    by_cases ht : jsTrimStr a = ""
    · by_cases hn0 : n = ""
      · simp [exportRow, getF, ha, hn, valTrim, truthy, ht, hn0, valOrEmpty]
      · simp [exportRow, getF, ha, hn, valTrim, truthy, ht, hn0, valOrEmpty]
    · have ha1 : a ≠ "" := by
        intro hc
        subst hc
        exact ht rfl
      simp [exportRow, getF, ha, hn, valTrim, truthy, ht, ha1, valOrEmpty]
  · intro r i c hi hc
    simp [exportRow, getF, hi, hc, valOrEmpty_vStr, glsIndirizzo, valToString]

theorem claim7_witness :
    glsTruthy c7r1 = true ∧
    getF (exportRow c7r1) "NOME DESTINATARIO" = Val.vStr "A" ∧
    getF (exportRow c7r1) "INDIRIZZO" = Val.vStr "Via X 5" := by
  refine ⟨(claim7_exportFilterProjection.1 c7r1).mpr (Or.inl rfl), ?_, ?_⟩
  · have h := claim7_exportFilterProjection.2.1 c7r1 "" "A" rfl rfl
    rw [if_neg (by decide), if_pos (by decide)] at h
    exact h
  · have h := claim7_exportFilterProjection.2.2.1 c7r1 "Via X" "5" rfl rfl
    exact h.trans (by decide)


/-- C8: when `civico` is empty and the trimmed `indirizzo` matches the
trailing-house-number pattern, the lazy prefix becomes the new
`indirizzo` and the digit-led tail becomes `civico`; rows that do not
match are left unchanged; `"Via Roma, 12"` splits into `"Via Roma"` and
`"12"`. -/
theorem claim8_civicoSplit :
    (∀ (row : Rec) (s p t : String),
      getF row "indirizzo" = Val.vStr s → s ≠ "" →
      (getF row "civico" = Val.vUndef ∨ getF row "civico" = Val.vStr "") →
      civicoSplitStr (jsTrimStr s) = some (p, t) →
      getF (civicoStep row) "indirizzo" = Val.vStr (jsTrimStr p) ∧
      getF (civicoStep row) "civico" = Val.vStr (jsTrimStr t)) ∧
    (∀ (row : Rec) (s : String),
      getF row "indirizzo" = Val.vStr s →
      civicoSplitStr (jsTrimStr s) = none →
      civicoStep row = row) ∧
    civicoSplitStr "Via Roma, 12" = some ("Via Roma", "12") ∧
    civicoSplitStr "Via Roma" = none ∧
    (getF (normalizeRowData 0 [("indirizzo", Val.vStr "Via Roma, 12")] "clienti")
        "indirizzo" = Val.vStr "Via Roma" ∧
     getF (normalizeRowData 0 [("indirizzo", Val.vStr "Via Roma, 12")] "clienti")
        "civico" = Val.vStr "12") := by
  refine ⟨?_, ?_, by decide, by decide, by decide, by decide⟩
  · intro row s p t hs hsne hciv hsplit
    have hcond : (truthy (getF row "indirizzo") &&
        (!truthy (getF row "civico") || getF row "civico" == Val.vStr "")) = true := by
      rcases hciv with hc | hc <;> simp [hs, hc, truthy, hsne]
    have hstep : civicoStep row =
        setF (setF row "indirizzo" (.vStr (jsTrimStr p))) "civico"
          (.vStr (jsTrimStr t)) := by
      unfold civicoStep
      rw [if_pos hcond, hs]
      simp only [valToString]
      rw [hsplit]
    rw [hstep]
    constructor
    · rw [getF_setF_ne _ _ _ _ (by decide), getF_setF_self]
    · rw [getF_setF_self]
  · intro row s hs hnone
    unfold civicoStep
    split
    · rw [hs]
      simp only [valToString]
      rw [hnone]
    · rfl

theorem claim8_witness :
    getF (civicoStep [("indirizzo", Val.vStr "Via Roma, 12")]) "indirizzo" =
      Val.vStr "Via Roma" ∧
    getF (civicoStep [("indirizzo", Val.vStr "Via Roma, 12")]) "civico" =
      Val.vStr "12" := by
  have h := claim8_civicoSplit.1 [("indirizzo", Val.vStr "Via Roma, 12")]
    "Via Roma, 12" "Via Roma" "12" rfl (by decide) (Or.inl rfl) (by decide)
  exact ⟨h.1.trans (by decide), h.2.trans (by decide)⟩

/-- C9: with the workbook read/parse step modelled as an `Except`
outcome, `importFile` always returns a success or a failure result; a
raised exception yields `{success:false, message}` carrying the error
message and no data. -/
theorem claim9_importTotalFailure :
    (∀ (now : Int) (dataType : String) (readOutcome : Except String (List Rec)),
      (∃ m d, importFileModel now dataType readOutcome = ImportResult.success m d) ∨
      (∃ m, importFileModel now dataType readOutcome = ImportResult.failure m)) ∧
    (∀ (now : Int) (dataType msg : String),
      importFileModel now dataType (Except.error msg) =
        ImportResult.failure ("Errore durante l'importazione: " ++ msg)) := by
  constructor
  · intro now dataType ro
    cases ro with
    | error msg => exact Or.inr ⟨_, rfl⟩
    | ok d => exact Or.inl ⟨_, _, rfl⟩
  · intro now dataType msg
    rfl

theorem claim3_witness :
    acceptRow [("nome", Val.vStr "A"), ("telefono", Val.vStr "1"),
      ("cap", Val.vStr "2")] = true :=
  (claim3_acceptanceFilter.2
      [("nome", Val.vStr "A"), ("telefono", Val.vStr "1"), ("cap", Val.vStr "2")]
      (Or.inr ⟨"A", rfl⟩) (Or.inl rfl)).mpr
    ⟨Or.inl ⟨"A", rfl, by decide⟩, by decide⟩

/-! ### Why no spreadsheet header can shadow `tipo` or `createdAt` -/

theorem replaceWsRuns_eq_of_no_rep (rep : Char) :
    ∀ (l target : List Char), rep ∉ target →
      replaceWsRuns rep false l = target → l = target := by
  intro l
  induction l with
  | nil => intro target _ h; simpa [replaceWsRuns] using h
  | cons c t ih =>
    intro target hrep h
    by_cases hw : jsIsWs c
    · rw [show replaceWsRuns rep false (c :: t) = rep :: replaceWsRuns rep true t by
        simp [replaceWsRuns, hw]] at h
      exact absurd (h ▸ List.mem_cons_self rep _) hrep
    · rw [show replaceWsRuns rep false (c :: t) = c :: replaceWsRuns rep false t by
        simp [replaceWsRuns, hw]] at h
      cases target with
      | nil => simp at h
      | cons c2 t2 =>
        simp only [List.cons.injEq] at h
        have hrep2 : rep ∉ t2 := fun hm => hrep (List.mem_cons_of_mem _ hm)
        rw [h.1, ih t2 hrep2 h.2]

theorem mem_replaceWsRuns (rep : Char) :
    ∀ (b : Bool) (l : List Char) (c : Char),
      c ∈ replaceWsRuns rep b l → c = rep ∨ c ∈ l := by
  intro b l
  induction l generalizing b with
  | nil => intro c h; simp [replaceWsRuns] at h
  | cons d t ih =>
    intro c h
    by_cases hw : jsIsWs d
    · by_cases hb : b
      · rw [show replaceWsRuns rep b (d :: t) = replaceWsRuns rep true t by
          simp [replaceWsRuns, hw, hb]] at h
        rcases ih true c h with h2 | h2
        · exact Or.inl h2
        · exact Or.inr (List.mem_cons_of_mem _ h2)
      · rw [show replaceWsRuns rep b (d :: t) = rep :: replaceWsRuns rep true t by
          simp [replaceWsRuns, hw, hb]] at h
        rcases List.mem_cons.mp h with h2 | h2
        · exact Or.inl h2
        · rcases ih true c h2 with h3 | h3
          · exact Or.inl h3
          · exact Or.inr (List.mem_cons_of_mem _ h3)
    · rw [show replaceWsRuns rep b (d :: t) = d :: replaceWsRuns rep false t by
        simp [replaceWsRuns, hw]] at h
      rcases List.mem_cons.mp h with h2 | h2
      · exact Or.inr (h2 ▸ List.mem_cons_self d t)
      · rcases ih false c h2 with h3 | h3
        · exact Or.inl h3
        · exact Or.inr (List.mem_cons_of_mem _ h3)

theorem mem_jsTrimList (l : List Char) (c : Char) (h : c ∈ jsTrimList l) : c ∈ l := by
  unfold jsTrimList at h
  rw [List.mem_reverse] at h
  have h2 := (List.dropWhile_sublist jsIsWs).subset h
  rw [List.mem_reverse] at h2
  exact (List.dropWhile_sublist jsIsWs).subset h2

theorem jsToLowerChar_ne_A (c : Char) : jsToLowerChar c ≠ 'A' := by
  unfold jsToLowerChar
  cases hf : lowerPairs.find? (fun p => p.1 == c) with
  | none =>
    simp only [Option.map_none', Option.getD_none]
    intro hc
    have := List.find?_eq_none.mp hf ('A', 'a') (by decide)
    simp [hc] at this
  | some p =>
    simp only [Option.map_some', Option.getD_some]
    have hm := List.mem_of_find?_eq_some hf
    have hall : ∀ q ∈ lowerPairs, q.2 ≠ 'A' := by decide
    exact hall p hm

theorem normalizeKey_no_A (s : String) : 'A' ∉ (normalizeKey s).toList := by
  intro hc
  unfold normalizeKey at hc
  rcases mem_replaceWsRuns ' ' false _ 'A' hc with h | h
  · exact absurd h (by decide)
  · rw [List.mem_map] at h
    obtain ⟨d, hd, hdeq⟩ := h
    by_cases hsp : isSpecial d
    · rw [if_pos hsp] at hdeq
      exact absurd hdeq (by decide)
    · rw [if_neg hsp] at hdeq
      subst hdeq
      have h3 := mem_jsTrimList _ _ hd
      unfold jsLowerStr at h3
      rw [show (String.mk (s.toList.map jsToLowerChar)).toList =
        s.toList.map jsToLowerChar from rfl, List.mem_map] at h3
      obtain ⟨e, -, heq⟩ := h3
      exact jsToLowerChar_ne_A e heq

theorem resolveHeader_cases (h : String) :
    (∃ p ∈ keyMapping, resolveHeader h = p.1) ∨
      (resolveHeader h = underscoreKey (normalizeKey h) ∧
       exactMatch (normalizeKey h) = none) := by
  unfold resolveHeader
  dsimp only
  split
  · next k heq =>
    obtain ⟨p, hp, rfl⟩ := Option.map_eq_some'.mp heq
    exact Or.inl ⟨p, List.mem_of_find?_eq_some hp, rfl⟩
  · next heq =>
    split
    · next k heq2 =>
      obtain ⟨p, hp, rfl⟩ := Option.map_eq_some'.mp heq2
      exact Or.inl ⟨p, List.mem_of_find?_eq_some hp, rfl⟩
    · exact Or.inr ⟨rfl, heq⟩

theorem resolveHeader_ne_tipo (h : String) : resolveHeader h ≠ "tipo" := by
  rcases resolveHeader_cases h with ⟨p, hp, heq⟩ | ⟨heq, hnone⟩
  · rw [heq]
    have hall : ∀ q ∈ keyMapping, q.1 ≠ "tipo" := by decide
    exact hall p hp
  · rw [heq]
    intro hctr
    have hlist : replaceWsRuns '_' false (normalizeKey h).toList = "tipo".toList :=
      congrArg String.toList hctr
    have hnk : normalizeKey h = "tipo" :=
      String.ext (replaceWsRuns_eq_of_no_rep '_' _ _ (by decide) hlist)
    rw [hnk] at hnone
    exact absurd hnone (by decide)

theorem resolveHeader_ne_createdAt (h : String) : resolveHeader h ≠ "createdAt" := by
  rcases resolveHeader_cases h with ⟨p, hp, heq⟩ | ⟨heq, -⟩
  · rw [heq]
    have hall : ∀ q ∈ keyMapping, q.1 ≠ "createdAt" := by decide
    exact hall p hp
  · rw [heq]
    intro hctr
    have hA : 'A' ∈ (underscoreKey (normalizeKey h)).toList := by
      rw [hctr]
      decide
    unfold underscoreKey at hA
    rcases mem_replaceWsRuns '_' false _ 'A' hA with h2 | h2
    · exact absurd h2 (by decide)
    · exact normalizeKey_no_A h h2

/-! ### The normalization loops never write the base keys -/

theorem getF_headerLoop_not_resolved (rest : List (String × Val)) (k : String)
    (hk : ∀ s, resolveHeader s ≠ k) :
    ∀ acc : Rec, getF (headerLoop rest acc) k = getF acc k := by
  induction rest with
  | nil => intro acc; rfl
  | cons e t ih =>
    intro acc
    obtain ⟨hk0, v⟩ := e
    unfold headerLoop
    split
    · exact ih acc
    · rw [ih _, getF_setF_ne _ _ _ _ (fun hc => hk hk0 hc.symm)]

theorem getF_genericLoop_not_mem (row : Rec) (k : String)
    (hk : k ∉ columnOrder) :
    ∀ (ks : List String) (ci : Nat) (acc : Rec),
      getF (genericLoop row ks ci acc) k = getF acc k := by
  intro ks
  induction ks with
  | nil => intro ci acc; rfl
  | cons s t ih =>
    intro ci acc
    unfold genericLoop
    split
    · next hcond =>
      have hci : ci < columnOrder.length := by
        have := (Bool.and_eq_true _ _).mp hcond
        exact of_decide_eq_true this.2
      have hcol : columnOrder.getD ci "" ∈ columnOrder := by
        rw [List.getD_eq_getElem columnOrder "" hci]
        exact List.getElem_mem hci
      have hne : k ≠ columnOrder.getD ci "" := fun hc => hk (hc ▸ hcol)
      dsimp only
      rw [ih]
      split
      · rw [getF_setF_ne _ _ _ _ hne]
      · rfl
    · exact ih _ _

theorem keysNodup_headerLoop (rest : List (String × Val)) :
    ∀ acc : Rec, keysNodup acc → keysNodup (headerLoop rest acc) := by
  induction rest with
  | nil => intro acc h; exact h
  | cons e t ih =>
    intro acc h
    obtain ⟨hk0, v⟩ := e
    unfold headerLoop
    split
    · exact ih acc h
    · exact ih _ (keysNodup_setF _ _ _ h)

theorem keysNodup_genericLoop (row : Rec) :
    ∀ (ks : List String) (ci : Nat) (acc : Rec),
      keysNodup acc → keysNodup (genericLoop row ks ci acc) := by
  intro ks
  induction ks with
  | nil => intro ci acc h; exact h
  | cons s t ih =>
    intro ci acc h
    unfold genericLoop
    split
    · dsimp only
      split
      · exact ih _ _ (keysNodup_setF _ _ _ h)
      · exact ih _ _ h
    · exact ih _ _ h

theorem getF_withId_ne (now : Int) (index : Nat) (r : Rec) (k : String)
    (hk : k ≠ "id") : getF (withId now index r) k = getF r k := by
  unfold withId
  split
  · rfl
  · rw [getF_setF_ne _ _ _ _ hk]

theorem keysNodup_withId (now : Int) (index : Nat) (r : Rec) (h : keysNodup r) :
    keysNodup (withId now index r) := by
  unfold withId
  split
  · exact h
  · exact keysNodup_setF _ _ _ h

theorem truthy_isCounted (v : Val) (h : truthy v = true) : isCounted v = true := by
  cases v <;> simpa [truthy, isCounted] using h

theorem truthy_ne_undef (v : Val) (h : truthy v = true) : v ≠ Val.vUndef := by
  intro hc
  rw [hc] at h
  simp [truthy] at h

/-- C10 fails as stated: a spreadsheet column literally named
`eliminato` resolves to the key `eliminato` (it matches no synonym) and
its normalized value overwrites the `eliminato: false` that every row
starts with; with value `" "` the stored value trims to `""`, so the row
carries `eliminato = ""` (not `false`) and only 3 counted fields. -/
theorem claim10_counterexample :
    getF (withId 1 0 (normalizeRowData 1 [("eliminato", Val.vStr " ")] "clienti"))
      "eliminato" = Val.vStr "" ∧
    countNonEmpty
      (withId 1 0 (normalizeRowData 1 [("eliminato", Val.vStr " ")] "clienti")) = 3 := by
  decide

/-- C10 amended: every normalized row still carries `tipo = recordKind`
and `createdAt = now` (no header can shadow those keys), a truthy `id`
after synthesis, and therefore at least 3 counted fields — so the
"at least 3 non-empty fields" conjunct never rejects a row and
acceptance is equivalent to `nome` or `azienda` being truthy.  (The
claim's stronger "eliminato = false, hence at least 4 counted fields"
fails when a column is literally named `eliminato`.) -/
theorem claim10_normalizedRowShape (now : Int) (index : Nat) (dataType : String)
    (row : Rec) (hdt : dataType ≠ "") (hnow : 0 < now) :
    getF (withId now index (normalizeRowData now row dataType)) "tipo" =
      Val.vStr dataType ∧
    getF (withId now index (normalizeRowData now row dataType)) "createdAt" =
      Val.vNum now ∧
    truthy (getF (withId now index (normalizeRowData now row dataType)) "id") = true ∧
    3 ≤ countNonEmpty (withId now index (normalizeRowData now row dataType)) ∧
    (acceptRow (withId now index (normalizeRowData now row dataType)) = true ↔
      (truthy (getF (withId now index (normalizeRowData now row dataType)) "nome") ||
       truthy (getF (withId now index (normalizeRowData now row dataType)) "azienda")) =
        true) := by
  have htipo0 : getF (normalizeRowData now row dataType) "tipo" = Val.vStr dataType := by
    unfold normalizeRowData
    dsimp only
    split
    · rw [getF_civicoStep_ne _ _ (by decide) (by decide),
        getF_genericLoop_not_mem row "tipo" (by decide)]
      rfl
    · rw [getF_civicoStep_ne _ _ (by decide) (by decide),
        getF_headerLoop_not_resolved row "tipo" resolveHeader_ne_tipo]
      rfl
  have hcre0 : getF (normalizeRowData now row dataType) "createdAt" = Val.vNum now := by
    unfold normalizeRowData
    dsimp only
    split
    · rw [getF_civicoStep_ne _ _ (by decide) (by decide),
        getF_genericLoop_not_mem row "createdAt" (by decide)]
      rfl
    · rw [getF_civicoStep_ne _ _ (by decide) (by decide),
        getF_headerLoop_not_resolved row "createdAt" resolveHeader_ne_createdAt]
      rfl
  have hnd0 : keysNodup (normalizeRowData now row dataType) := by
    unfold normalizeRowData
    dsimp only
    split
    · exact keysNodup_civicoStep _
        (keysNodup_genericLoop row _ _ _ (by simp [keysNodup]))
    · exact keysNodup_civicoStep _ (keysNodup_headerLoop row _ (by simp [keysNodup]))
  have htipo : getF (withId now index (normalizeRowData now row dataType)) "tipo" =
      Val.vStr dataType := by
    rw [getF_withId_ne _ _ _ _ (by decide), htipo0]
  have hcre : getF (withId now index (normalizeRowData now row dataType)) "createdAt" =
      Val.vNum now := by
    rw [getF_withId_ne _ _ _ _ (by decide), hcre0]
  have hid : truthy (getF (withId now index (normalizeRowData now row dataType)) "id") =
      true := by
    unfold withId
    split
    · next hcond => exact hcond
    · rw [getF_setF_self]
      have hpos : now + (index : Int) ≠ 0 := by omega
      simp [truthy, bne_iff_ne, hpos]
  have hndw : keysNodup (withId now index (normalizeRowData now row dataType)) :=
    keysNodup_withId _ _ _ hnd0
  have hcount : 3 ≤ countNonEmpty (withId now index (normalizeRowData now row dataType)) := by
    refine three_le_countNonEmpty _ hndw "tipo" "createdAt" "id"
      (Val.vStr dataType) (Val.vNum now)
      (getF (withId now index (normalizeRowData now row dataType)) "id")
      (by decide) (by decide) (by decide)
      (mem_of_getF_eq _ _ _ htipo (by simp))
      (mem_of_getF_eq _ _ _ hcre (by simp))
      (mem_of_getF_eq _ _ _ rfl (truthy_ne_undef _ hid))
      (by simpa [isCounted, bne_iff_ne] using hdt) rfl (truthy_isCounted _ hid)
  refine ⟨htipo, hcre, hid, hcount, ?_⟩
  unfold acceptRow
  simp [Bool.and_eq_true, decide_eq_true_eq, hcount]

theorem claim10_witness :
    getF (withId 1 0 (normalizeRowData 1 [] "clienti")) "tipo" = Val.vStr "clienti" ∧
    3 ≤ countNonEmpty (withId 1 0 (normalizeRowData 1 [] "clienti")) := by
  have h := claim10_normalizedRowShape 1 0 "clienti" [] (by decide) (by decide)
  exact ⟨h.1, h.2.2.2.1⟩

/-! ### Tracking single headers through the mapping loop (round trip) -/

theorem headerLoop_cons_skip (k : String) (v : Val) (rest : List (String × Val))
    (acc : Rec) (h : (v == Val.vStr "" || v == Val.vNull || v == Val.vUndef) = true) :
    headerLoop ((k, v) :: rest) acc = headerLoop rest acc := by
  show (if (v == Val.vStr "" || v == Val.vNull || v == Val.vUndef) = true
      then headerLoop rest acc
      else headerLoop rest
        (setF acc (resolveHeader k) (normalizeValue (resolveHeader k) v))) =
    headerLoop rest acc
  rw [if_pos h]

theorem headerLoop_cons_keep (k : String) (v : Val) (rest : List (String × Val))
    (acc : Rec) (h : (v == Val.vStr "" || v == Val.vNull || v == Val.vUndef) = false) :
    headerLoop ((k, v) :: rest) acc =
      headerLoop rest (setF acc (resolveHeader k) (normalizeValue (resolveHeader k) v)) := by
  show (if (v == Val.vStr "" || v == Val.vNull || v == Val.vUndef) = true
      then headerLoop rest acc
      else headerLoop rest
        (setF acc (resolveHeader k) (normalizeValue (resolveHeader k) v))) =
    headerLoop rest (setF acc (resolveHeader k) (normalizeValue (resolveHeader k) v))
  rw [if_neg (by rw [h]; exact Bool.false_ne_true)]

theorem headerLoop_append (l1 l2 : List (String × Val)) :
    ∀ acc, headerLoop (l1 ++ l2) acc = headerLoop l2 (headerLoop l1 acc) := by
  induction l1 with
  | nil => intro acc; rfl
  | cons e t ih =>
    intro acc
    obtain ⟨k, v⟩ := e
    by_cases hv : (v == Val.vStr "" || v == Val.vNull || v == Val.vUndef) = true
    · rw [show ((k, v) :: t) ++ l2 = (k, v) :: (t ++ l2) from rfl,
        headerLoop_cons_skip _ _ _ _ hv, headerLoop_cons_skip _ _ _ _ hv, ih]
    · have hv2 := Bool.not_eq_true _ ▸ hv
      rw [show ((k, v) :: t) ++ l2 = (k, v) :: (t ++ l2) from rfl,
        headerLoop_cons_keep _ _ _ _ (Bool.not_eq_true _ ▸ hv),
        headerLoop_cons_keep _ _ _ _ (Bool.not_eq_true _ ▸ hv), ih]

theorem getF_headerLoop_none_keys (rest : List (String × Val)) (k : String) :
    (∀ s ∈ rest.map Prod.fst, resolveHeader s ≠ k) →
    ∀ acc, getF (headerLoop rest acc) k = getF acc k := by
  induction rest with
  | nil => intro _ acc; rfl
  | cons e t ih =>
    intro hk acc
    obtain ⟨k0, v⟩ := e
    have hk0 : resolveHeader k0 ≠ k := hk k0 (by simp)
    have hkt : ∀ s ∈ t.map Prod.fst, resolveHeader s ≠ k :=
      fun s hs => hk s (by simp [hs])
    by_cases hv : (v == Val.vStr "" || v == Val.vNull || v == Val.vUndef) = true
    · rw [headerLoop_cons_skip _ _ _ _ hv, ih hkt]
    · rw [headerLoop_cons_keep _ _ _ _ (Bool.not_eq_true _ ▸ hv), ih hkt,
        getF_setF_ne _ _ _ _ (fun hc => hk0 hc.symm)]

theorem getF_headerLoop_mapped (l1 : List (String × Val)) (hk : String) (v : Val)
    (l2 : List (String × Val)) (k : String)
    (hres : resolveHeader hk = k)
    (hskip : (v == Val.vStr "" || v == Val.vNull || v == Val.vUndef) = false)
    (hpost : ∀ s ∈ l2.map Prod.fst, resolveHeader s ≠ k) :
    ∀ acc, getF (headerLoop (l1 ++ (hk, v) :: l2) acc) k = normalizeValue k v := by
  intro acc
  rw [headerLoop_append, headerLoop_cons_keep _ _ _ _ hskip,
    getF_headerLoop_none_keys l2 k hpost _, hres, getF_setF_self]

theorem normalizeValue_str (f : String) (s : String)
    (hf : (f == "grappa" || f == "gls") = false) :
    normalizeValue f (Val.vStr s) = Val.vStr (jsTrimStr s) := by
  unfold normalizeValue
  rw [if_neg (by rw [hf]; exact Bool.false_ne_true)]
  rfl

/-- The exported 10-column row shape, with symbolic recipient name,
address, and note value. -/
def glsRow (nd ind l p c t n : String) (nv : Val) : Rec :=
  [("NOME DESTINATARIO", Val.vStr nd), ("INDIRIZZO", Val.vStr ind), ("LOCALITA'", Val.vStr l), ("PROV", Val.vStr p), ("CAP", Val.vStr c), ("TIPO MERCE", Val.vStr "OMAGGIO NATALIZIO"), ("COLLI", Val.vStr "1"), ("NOTE SPEDIZIONE", nv), ("RIFERIMENTO MITTENTE", Val.vStr n), ("TELEFONO", Val.vStr t)]

/-- The row shape produced by `exportGLS`, fed back through the
header-based normalization: the address and phone columns come back
under their canonical keys, the recipient-name column comes back as
`nome`, and the sender-reference column lands under the non-canonical
key `riferimento_mittente`. -/
theorem roundTripRow (now : Int) (dt : String) (nd ind n l p c t : String) (nv : Val)
    (hnd : nd ≠ "") (hn1 : jsTrimStr n = n) (hn2 : n ≠ "")
    (hl1 : jsTrimStr l = l) (hl2 : l ≠ "")
    (hp1 : jsTrimStr p = p) (hp2 : p ≠ "")
    (hc1 : jsTrimStr c = c) (hc2 : c ≠ "")
    (ht1 : jsTrimStr t = t) (ht2 : t ≠ "") :
    getF (normalizeRowData now (glsRow nd ind l p c t n nv) dt) "localita" = Val.vStr l ∧
    getF (normalizeRowData now (glsRow nd ind l p c t n nv) dt) "provincia" = Val.vStr p ∧
    getF (normalizeRowData now (glsRow nd ind l p c t n nv) dt) "cap" = Val.vStr c ∧
    getF (normalizeRowData now (glsRow nd ind l p c t n nv) dt) "telefono" = Val.vStr t ∧
    getF (normalizeRowData now (glsRow nd ind l p c t n nv) dt) "nome" =
      Val.vStr (jsTrimStr nd) ∧
    getF (normalizeRowData now (glsRow nd ind l p c t n nv) dt) "riferimento_mittente" =
      Val.vStr n := by
  have hng : ((glsRow nd ind l p c t n nv).any fun kv => isGenericCol kv.1) = false := by
    unfold glsRow
    simp only [List.any_cons, List.any_nil]
    decide
  have hrow : normalizeRowData now (glsRow nd ind l p c t n nv) dt =
      civicoStep (headerLoop (glsRow nd ind l p c t n nv)
        [("tipo", Val.vStr dt), ("eliminato", Val.vBool false),
         ("createdAt", Val.vNum now)]) := by
    unfold normalizeRowData
    dsimp only
    rw [if_neg (by rw [hng]; exact Bool.false_ne_true)]
  refine ⟨?_, ?_, ?_, ?_, ?_, ?_⟩
  · rw [hrow, getF_civicoStep_ne _ _ (by decide) (by decide),
      show glsRow nd ind l p c t n nv =
        [("NOME DESTINATARIO", Val.vStr nd), ("INDIRIZZO", Val.vStr ind)] ++ ("LOCALITA'", Val.vStr l) :: [("PROV", Val.vStr p), ("CAP", Val.vStr c), ("TIPO MERCE", Val.vStr "OMAGGIO NATALIZIO"), ("COLLI", Val.vStr "1"), ("NOTE SPEDIZIONE", nv), ("RIFERIMENTO MITTENTE", Val.vStr n), ("TELEFONO", Val.vStr t)] from rfl,
      getF_headerLoop_mapped [("NOME DESTINATARIO", Val.vStr nd), ("INDIRIZZO", Val.vStr ind)] "LOCALITA'" (Val.vStr l)
        [("PROV", Val.vStr p), ("CAP", Val.vStr c), ("TIPO MERCE", Val.vStr "OMAGGIO NATALIZIO"), ("COLLI", Val.vStr "1"), ("NOTE SPEDIZIONE", nv), ("RIFERIMENTO MITTENTE", Val.vStr n), ("TELEFONO", Val.vStr t)] "localita" (by decide) (by simp [hl2])
        (by decide : ∀ s ∈ (["PROV", "CAP", "TIPO MERCE", "COLLI", "NOTE SPEDIZIONE", "RIFERIMENTO MITTENTE", "TELEFONO"] : List String), resolveHeader s ≠ "localita") _,
      normalizeValue_str _ _ (by decide), hl1]
  · rw [hrow, getF_civicoStep_ne _ _ (by decide) (by decide),
      show glsRow nd ind l p c t n nv =
        [("NOME DESTINATARIO", Val.vStr nd), ("INDIRIZZO", Val.vStr ind), ("LOCALITA'", Val.vStr l)] ++ ("PROV", Val.vStr p) :: [("CAP", Val.vStr c), ("TIPO MERCE", Val.vStr "OMAGGIO NATALIZIO"), ("COLLI", Val.vStr "1"), ("NOTE SPEDIZIONE", nv), ("RIFERIMENTO MITTENTE", Val.vStr n), ("TELEFONO", Val.vStr t)] from rfl,
      getF_headerLoop_mapped [("NOME DESTINATARIO", Val.vStr nd), ("INDIRIZZO", Val.vStr ind), ("LOCALITA'", Val.vStr l)] "PROV" (Val.vStr p)
        [("CAP", Val.vStr c), ("TIPO MERCE", Val.vStr "OMAGGIO NATALIZIO"), ("COLLI", Val.vStr "1"), ("NOTE SPEDIZIONE", nv), ("RIFERIMENTO MITTENTE", Val.vStr n), ("TELEFONO", Val.vStr t)] "provincia" (by decide) (by simp [hp2])
        (by decide : ∀ s ∈ (["CAP", "TIPO MERCE", "COLLI", "NOTE SPEDIZIONE", "RIFERIMENTO MITTENTE", "TELEFONO"] : List String), resolveHeader s ≠ "provincia") _,
      normalizeValue_str _ _ (by decide), hp1]
  · rw [hrow, getF_civicoStep_ne _ _ (by decide) (by decide),
      show glsRow nd ind l p c t n nv =
        [("NOME DESTINATARIO", Val.vStr nd), ("INDIRIZZO", Val.vStr ind), ("LOCALITA'", Val.vStr l), ("PROV", Val.vStr p)] ++ ("CAP", Val.vStr c) :: [("TIPO MERCE", Val.vStr "OMAGGIO NATALIZIO"), ("COLLI", Val.vStr "1"), ("NOTE SPEDIZIONE", nv), ("RIFERIMENTO MITTENTE", Val.vStr n), ("TELEFONO", Val.vStr t)] from rfl,
      getF_headerLoop_mapped [("NOME DESTINATARIO", Val.vStr nd), ("INDIRIZZO", Val.vStr ind), ("LOCALITA'", Val.vStr l), ("PROV", Val.vStr p)] "CAP" (Val.vStr c)
        [("TIPO MERCE", Val.vStr "OMAGGIO NATALIZIO"), ("COLLI", Val.vStr "1"), ("NOTE SPEDIZIONE", nv), ("RIFERIMENTO MITTENTE", Val.vStr n), ("TELEFONO", Val.vStr t)] "cap" (by decide) (by simp [hc2])
        (by decide : ∀ s ∈ (["TIPO MERCE", "COLLI", "NOTE SPEDIZIONE", "RIFERIMENTO MITTENTE", "TELEFONO"] : List String), resolveHeader s ≠ "cap") _,
      normalizeValue_str _ _ (by decide), hc1]
  · rw [hrow, getF_civicoStep_ne _ _ (by decide) (by decide),
      show glsRow nd ind l p c t n nv =
        [("NOME DESTINATARIO", Val.vStr nd), ("INDIRIZZO", Val.vStr ind), ("LOCALITA'", Val.vStr l), ("PROV", Val.vStr p), ("CAP", Val.vStr c), ("TIPO MERCE", Val.vStr "OMAGGIO NATALIZIO"), ("COLLI", Val.vStr "1"), ("NOTE SPEDIZIONE", nv), ("RIFERIMENTO MITTENTE", Val.vStr n)] ++ ("TELEFONO", Val.vStr t) :: [] from rfl,
      getF_headerLoop_mapped [("NOME DESTINATARIO", Val.vStr nd), ("INDIRIZZO", Val.vStr ind), ("LOCALITA'", Val.vStr l), ("PROV", Val.vStr p), ("CAP", Val.vStr c), ("TIPO MERCE", Val.vStr "OMAGGIO NATALIZIO"), ("COLLI", Val.vStr "1"), ("NOTE SPEDIZIONE", nv), ("RIFERIMENTO MITTENTE", Val.vStr n)] "TELEFONO" (Val.vStr t)
        [] "telefono" (by decide) (by simp [ht2])
        (by decide : ∀ s ∈ ([] : List String), resolveHeader s ≠ "telefono") _,
      normalizeValue_str _ _ (by decide), ht1]
  · rw [hrow, getF_civicoStep_ne _ _ (by decide) (by decide),
      show glsRow nd ind l p c t n nv =
        [] ++ ("NOME DESTINATARIO", Val.vStr nd) :: [("INDIRIZZO", Val.vStr ind), ("LOCALITA'", Val.vStr l), ("PROV", Val.vStr p), ("CAP", Val.vStr c), ("TIPO MERCE", Val.vStr "OMAGGIO NATALIZIO"), ("COLLI", Val.vStr "1"), ("NOTE SPEDIZIONE", nv), ("RIFERIMENTO MITTENTE", Val.vStr n), ("TELEFONO", Val.vStr t)] from rfl,
      getF_headerLoop_mapped [] "NOME DESTINATARIO" (Val.vStr nd)
        [("INDIRIZZO", Val.vStr ind), ("LOCALITA'", Val.vStr l), ("PROV", Val.vStr p), ("CAP", Val.vStr c), ("TIPO MERCE", Val.vStr "OMAGGIO NATALIZIO"), ("COLLI", Val.vStr "1"), ("NOTE SPEDIZIONE", nv), ("RIFERIMENTO MITTENTE", Val.vStr n), ("TELEFONO", Val.vStr t)] "nome" (by decide) (by simp [hnd])
        (by decide : ∀ s ∈ (["INDIRIZZO", "LOCALITA'", "PROV", "CAP", "TIPO MERCE", "COLLI", "NOTE SPEDIZIONE", "RIFERIMENTO MITTENTE", "TELEFONO"] : List String), resolveHeader s ≠ "nome") _,
      normalizeValue_str _ _ (by decide)]
  · rw [hrow, getF_civicoStep_ne _ _ (by decide) (by decide),
      show glsRow nd ind l p c t n nv =
        [("NOME DESTINATARIO", Val.vStr nd), ("INDIRIZZO", Val.vStr ind), ("LOCALITA'", Val.vStr l), ("PROV", Val.vStr p), ("CAP", Val.vStr c), ("TIPO MERCE", Val.vStr "OMAGGIO NATALIZIO"), ("COLLI", Val.vStr "1"), ("NOTE SPEDIZIONE", nv)] ++ ("RIFERIMENTO MITTENTE", Val.vStr n) :: [("TELEFONO", Val.vStr t)] from rfl,
      getF_headerLoop_mapped [("NOME DESTINATARIO", Val.vStr nd), ("INDIRIZZO", Val.vStr ind), ("LOCALITA'", Val.vStr l), ("PROV", Val.vStr p), ("CAP", Val.vStr c), ("TIPO MERCE", Val.vStr "OMAGGIO NATALIZIO"), ("COLLI", Val.vStr "1"), ("NOTE SPEDIZIONE", nv)] "RIFERIMENTO MITTENTE" (Val.vStr n)
        [("TELEFONO", Val.vStr t)] "riferimento_mittente" (by decide) (by simp [hn2])
        (by decide : ∀ s ∈ (["TELEFONO"] : List String), resolveHeader s ≠ "riferimento_mittente") _,
      normalizeValue_str _ _ (by decide), hn1]

/-- C6 fails as stated: the sender-reference column `RIFERIMENTO
MITTENTE` does not map back to a canonical field — it resolves to the
fallback key `riferimento_mittente`; re-importing an exported record
with a non-empty `azienda` leaves `azienda` absent and puts the company
name under `nome`, so `nome`/`azienda` are not reconstructed under
canonical fields. -/
theorem claim6_counterexample :
    resolveHeader "RIFERIMENTO MITTENTE" = "riferimento_mittente" ∧
    "riferimento_mittente" ∉ canonicalFields ∧
    getF (normalizeRowData 3 (exportRow
        [("nome", Val.vStr "A"), ("azienda", Val.vStr "B"), ("gls", Val.vStr "1")])
      "clienti") "azienda" = Val.vUndef ∧
    getF (normalizeRowData 3 (exportRow
        [("nome", Val.vStr "A"), ("azienda", Val.vStr "B"), ("gls", Val.vStr "1")])
      "clienti") "nome" = Val.vStr "B" ∧
    getF (normalizeRowData 3 (exportRow
        [("nome", Val.vStr "A"), ("azienda", Val.vStr "B"), ("gls", Val.vStr "1")])
      "clienti") "riferimento_mittente" = Val.vStr "A" := by
  decide

/-- C6 amended: for a GLS record whose `nome`, `localita`, `provincia`,
`cap`, `telefono` are trimmed non-empty strings and whose `azienda` is a
trimmed string, exporting and re-importing through header normalization
preserves `localita`, `provincia`, `cap` and `telefono`; the
recipient-name column comes back as canonical `nome` (holding `azienda`
when non-empty, else `nome`), while the original `nome` survives only
under the non-canonical key `riferimento_mittente`. -/
theorem claim6_glsRoundTrip (now : Int) (dt : String) (r : Rec)
    (n a l p c t : String)
    (hn : getF r "nome" = Val.vStr n) (hn1 : jsTrimStr n = n) (hn2 : n ≠ "")
    (ha : getF r "azienda" = Val.vStr a) (ha1 : jsTrimStr a = a)
    (hl : getF r "localita" = Val.vStr l) (hl1 : jsTrimStr l = l) (hl2 : l ≠ "")
    (hp : getF r "provincia" = Val.vStr p) (hp1 : jsTrimStr p = p) (hp2 : p ≠ "")
    (hc : getF r "cap" = Val.vStr c) (hc1 : jsTrimStr c = c) (hc2 : c ≠ "")
    (ht : getF r "telefono" = Val.vStr t) (ht1 : jsTrimStr t = t) (ht2 : t ≠ "") :
    getF (normalizeRowData now (exportRow r) dt) "localita" = Val.vStr l ∧
    getF (normalizeRowData now (exportRow r) dt) "provincia" = Val.vStr p ∧
    getF (normalizeRowData now (exportRow r) dt) "cap" = Val.vStr c ∧
    getF (normalizeRowData now (exportRow r) dt) "telefono" = Val.vStr t ∧
    getF (normalizeRowData now (exportRow r) dt) "nome" =
      (if a = "" then Val.vStr n else Val.vStr a) ∧
    getF (normalizeRowData now (exportRow r) dt) "riferimento_mittente" =
      Val.vStr n := by
  have hexp : exportRow r =
      glsRow (if a = "" then n else a) (glsIndirizzo r) l p c t n
        (valOrEmpty (getF r "note")) := by
    unfold exportRow glsRow
    dsimp only
    rw [ha, hn, hl, hp, hc, ht]
    by_cases ha0 : a = ""
    · simp [ha0, truthy, valTrim, valOrEmpty_vStr]
    · simp [ha0, truthy, valTrim, ha1, valOrEmpty_vStr]
  rw [hexp]
  have h := roundTripRow now dt (if a = "" then n else a) (glsIndirizzo r) n l p c t
    (valOrEmpty (getF r "note"))
    (by by_cases ha0 : a = "" <;> simp [ha0, hn2])
    hn1 hn2 hl1 hl2 hp1 hp2 hc1 hc2 ht1 ht2
  refine ⟨h.1, h.2.1, h.2.2.1, h.2.2.2.1, ?_, h.2.2.2.2.2⟩
  rw [h.2.2.2.2.1]
  by_cases ha0 : a = ""
  · simp [ha0, hn1]
  · simp [ha0, ha1]

def claim6rec : Rec :=
  [("nome", .vStr "A"), ("azienda", .vStr "B"), ("gls", .vStr "1"),
   ("localita", .vStr "Udine"), ("provincia", .vStr "UD"), ("cap", .vStr "33100"),
   ("telefono", .vStr "0432")]

theorem claim6_witness :
    getF (normalizeRowData 3 (exportRow claim6rec) "clienti") "localita" =
      Val.vStr "Udine" ∧
    getF (normalizeRowData 3 (exportRow claim6rec) "clienti") "telefono" =
      Val.vStr "0432" ∧
    getF (normalizeRowData 3 (exportRow claim6rec) "clienti") "nome" =
      Val.vStr "B" ∧
    getF (normalizeRowData 3 (exportRow claim6rec) "clienti") "riferimento_mittente" =
      Val.vStr "A" := by
  have h := claim6_glsRoundTrip 3 "clienti" claim6rec "A" "B" "Udine" "UD" "33100"
    "0432" rfl (by decide) (by decide) rfl (by decide) rfl (by decide) (by decide)
    rfl (by decide) (by decide) rfl (by decide) (by decide) rfl (by decide) (by decide)
  exact ⟨h.1, h.2.2.2.1, h.2.2.2.2.1.trans (by decide), h.2.2.2.2.2⟩
